/-
Verification of the KOSPI investor-flow data pipeline
(scripts/update_latest_data.py) against its natural-language
specification.  The Python source is shallowly embedded: machine floats
are modelled as rationals, Python dicts as insertion-ordered association
lists, exceptions as Except, and the page fetcher as a function from
page numbers to page outcomes.
-/
import Mathlib

set_option maxHeartbeats 1000000
set_option maxRecDepth 1024

namespace RiskKospi

/-- Trading dates are ISO "YYYY-MM-DD" strings; the Python code compares
them with plain string comparison, which we mirror with the
lexicographic order on String. -/
abbrev Date := String

/-! ### String and number parsing (parse_number / parse_float, lines 24-45) -/

/-- Model of the two replace calls in parse_number / parse_float:
value.replace(",", "").replace("+", "") removes every comma and every
plus sign. -/
def removeCommaPlus (s : String) : String :=
  String.mk (s.toList.filter fun c => !(c == ',' || c == '+'))

/-- Model of Python str.strip(): drop whitespace from both ends. -/
def stripWs (s : String) : String :=
  String.mk (((s.toList.dropWhile Char.isWhitespace).reverse.dropWhile
    Char.isWhitespace).reverse)

/-- Numeric value of a list of decimal digit characters. -/
def digitsToNat (cs : List Char) : Nat :=
  cs.foldl (fun n c => n * 10 + (c.toNat - 48)) 0

/-- Split a character list on a separator character. -/
def splitOnChar (sep : Char) : List Char → List (List Char)
  | [] => [[]]
  | c :: rest =>
    match splitOnChar sep rest with
    | [] => if c == sep then [[], []] else [[c]]
    | h :: t => if c == sep then [] :: h :: t else (c :: h) :: t

/-- Mantissa of a decimal literal: digits, optionally with one decimal
point; at least one digit overall (Python float accepts "5.", ".5"). -/
def parseMantissa (cs : List Char) : Option ℚ :=
  match splitOnChar '.' cs with
  | [ip] =>
    if ip ≠ [] ∧ ip.all Char.isDigit then some (digitsToNat ip : ℚ) else none
  | [ip, fp] =>
    if (ip ≠ [] ∨ fp ≠ []) ∧ ip.all Char.isDigit ∧ fp.all Char.isDigit then
      some ((digitsToNat ip : ℚ) + (digitsToNat fp : ℚ) / (10 : ℚ) ^ fp.length)
    else none
  | _ => none

/-- Exponent part of a decimal literal: optional sign then digits. -/
def parseExpPart (cs : List Char) : Option Int :=
  match cs with
  | '+' :: ds => if ds ≠ [] ∧ ds.all Char.isDigit then some (digitsToNat ds : Int) else none
  | '-' :: ds => if ds ≠ [] ∧ ds.all Char.isDigit then some (-(digitsToNat ds : Int)) else none
  | ds => if ds ≠ [] ∧ ds.all Char.isDigit then some (digitsToNat ds : Int) else none

/-- Model of Python float() on ordinary decimal literals (optional sign,
digits with optional decimal point, optional exponent).  Special forms
such as "inf", "nan" or underscore separators never occur in the scraped
cells and are not modelled. -/
def parseFloatLit (s : String) : Option ℚ :=
  let cs := s.toList.map Char.toLower
  let signAndRest : ℚ × List Char :=
    match cs with
    | '+' :: rest => (1, rest)
    | '-' :: rest => (-1, rest)
    | rest => (1, rest)
  match splitOnChar 'e' signAndRest.2 with
  | [m] => (parseMantissa m).map (signAndRest.1 * ·)
  | [m, ex] =>
    match parseMantissa m, parseExpPart ex with
    | some q, some k => some (signAndRest.1 * q * (10 : ℚ) ^ k)
    | _, _ => none
  | _ => none

/-- Truncation toward zero, the behaviour of Python int() on a float. -/
def truncQ (q : ℚ) : Int :=
  if q < 0 then -((-q).floor) else q.floor

/-- Model of Python round(x, 2).  Ties cannot arise on the pipeline's
already-2-decimal data, so round-half-up stands in for float rounding. -/
def round2 (q : ℚ) : ℚ :=
  ((round (q * 100) : ℤ) : ℚ) / 100

/-- parse_number (source lines 24-33): strip commas and plus signs and
surrounding whitespace; empty string and non-numeric residue give 0,
otherwise int(float(...)). -/
def parse_number (value : Option String) : Int :=
  match value with
  | none => 0
  | some v =>
    let normalized := stripWs (removeCommaPlus v)
    if normalized = "" then 0
    else
      match parseFloatLit normalized with
      | some q => truncQ q
      | none => 0

/-- parse_float (source lines 36-45): same normalisation; empty string
and non-numeric residue give None. -/
def parse_float (value : Option String) : Option ℚ :=
  match value with
  | none => none
  | some v =>
    let normalized := stripWs (removeCommaPlus v)
    if normalized = "" then none
    else
      match parseFloatLit normalized with
      | some q => some q
      | none => none

/-- Digit character for n % 10. -/
def natDigit (n : Nat) : Char := Char.ofNat (48 + n % 10)

/-- Four-digit decimal rendering of a year, as f-string 04d formatting. -/
def year4 (n : Nat) : List Char :=
  [natDigit (n / 1000), natDigit (n / 100), natDigit (n / 10), natDigit n]

/-- normalize_detail_date (source lines 52-66): accepts "YYYY.MM.DD" and
"YY.MM.DD"; two-digit years at or above 90 map to 1900+YY, below 90 to
2000+YY; anything else gives None. -/
def normalize_detail_date (text : String) : Option String :=
  let s := stripWs text
  match s.toList with
  | [y1, y2, y3, y4, '.', m1, m2, '.', d1, d2] =>
    if [y1, y2, y3, y4, m1, m2, d1, d2].all Char.isDigit then
      some (String.mk [y1, y2, y3, y4, '-', m1, m2, '-', d1, d2])
    else none
  | [a, b, '.', m1, m2, '.', d1, d2] =>
    if [a, b, m1, m2, d1, d2].all Char.isDigit then
      let yy := digitsToNat [a, b]
      let year := if yy ≥ 90 then 1900 + yy else 2000 + yy
      some (String.mk (year4 year ++ ['-', m1, m2, '-', d1, d2]))
    else none
  | _ => none

/-! ### Python dicts as insertion-ordered association lists -/

/-- A Python dict keyed by date: an association list without duplicate
keys; assignment to an existing key replaces the value in place,
assignment to a fresh key appends. -/
abbrev Dict (α : Type) := List (Date × α)

/-- Dict lookup, m.get(k) / m[k]. -/
def dget (k : Date) : Dict α → Option α
  | [] => none
  | (k2, v) :: rest => if k = k2 then some v else dget k rest

/-- Dict assignment m[k] = v. -/
def dinsert (k : Date) (v : α) : Dict α → Dict α
  | [] => [(k, v)]
  | (k2, v2) :: rest =>
    if k = k2 then (k, v) :: rest else (k2, v2) :: dinsert k v rest

/-- Key list of a dict, in insertion order. -/
def dkeys (m : Dict α) : List Date := m.map Prod.fst

/-- Dict union with right precedence, as the literal {**base, **overlay}. -/
def dmerge (base overlay : Dict α) : Dict α :=
  overlay.foldl (fun acc p => dinsert p.1 p.2 acc) base

/-- Minimum of a list of dates, folded pairwise as Python min(). -/
def listMin : List Date → Option Date
  | [] => none
  | d :: ds =>
    match listMin ds with
    | none => some d
    | some m => some (min d m)

/-- min(m.keys()) when the dict is non-empty. -/
def minKey (m : Dict α) : Option Date := listMin (dkeys m)

/-! ### Records (data model of section 3 of the spec) -/

/-- The ten signed investor-flow quantities of one trading day, in the
column order of the scraped detail table. -/
structure FlowFields where
  individual : Int
  foreign : Int
  institution : Int
  financialInvestment : Int
  insurance : Int
  investmentTrust : Int
  bank : Int
  otherFinancial : Int
  pension : Int
  otherCorporation : Int
  deriving DecidableEq

/-- A row produced by parse_detail_rows: a date plus the ten flow
fields; fetched rows carry no kospiClose key. -/
structure DetailRow where
  date : Date
  flows : FlowFields
  deriving DecidableEq

/-- A full daily record as stored in the dataset file: flows plus the
nullable kospiClose. -/
structure Rec where
  date : Date
  flows : FlowFields
  kospiClose : Option ℚ
  deriving DecidableEq

/-- View of a fetched detail row as a stored record; the Python dict for
a fetched row has no kospiClose key, so row.get("kospiClose") is None. -/
def recOfDetail (r : DetailRow) : Rec :=
  { date := r.date, flows := r.flows, kospiClose := none }

/-! ### Row normalizers (parse_detail_rows / parse_kospi_rows bodies) -/

/-- Body of the row loop of parse_detail_rows (source lines 74-96) for
one row of cell texts: rows with fewer than 11 cells, no dot in the
first cell, or an unparsable date are discarded; the ten following
cells parse with parse_number. -/
def parse_detail_row (cols : List String) : Option DetailRow :=
  match cols with
  | c0 :: c1 :: c2 :: c3 :: c4 :: c5 :: c6 :: c7 :: c8 :: c9 :: c10 :: _ =>
    if '.' ∈ c0.toList then
      match normalize_detail_date c0 with
      | some date =>
        some
          { date := date
            flows :=
              { individual := parse_number (some c1)
                foreign := parse_number (some c2)
                institution := parse_number (some c3)
                financialInvestment := parse_number (some c4)
                insurance := parse_number (some c5)
                investmentTrust := parse_number (some c6)
                bank := parse_number (some c7)
                otherFinancial := parse_number (some c8)
                pension := parse_number (some c9)
                otherCorporation := parse_number (some c10) } }
      | none => none
    else none
  | _ => none

/-- Body of the row loop of parse_kospi_rows (source lines 130-139):
rows with fewer than 2 cells, no dot in the first cell, an unparsable
date, or a close cell that does not parse as a float are discarded;
the close is rounded to 2 decimals. -/
def parse_kospi_row (cols : List String) : Option (Date × ℚ) :=
  match cols with
  | c0 :: c1 :: _ =>
    if '.' ∈ c0.toList then
      match normalize_detail_date c0, parse_float (some c1) with
      | some date, some close => some (date, round2 close)
      | _, _ => none
    else none
  | _ => none

/-! ### Paginated fetcher (fetch_detail_trend_map / fetch_kospi_close_map) -/

/-- Outcome of requesting one page: either the HTTP request fails
(network error or a non-200 status, on which raise_for_status raises),
or a body whose table parses to a list of rows (possibly empty). -/
inductive PageOutcome (α : Type) where
  | fail : PageOutcome α
  | rows : List α → PageOutcome α

/-- Accumulation of one page of detail rows into the map: rows dated
before min_date are skipped, the rest are assigned by date. -/
def insertDetailRows (minDate : Date) (acc : Dict DetailRow) (rs : List DetailRow) :
    Dict DetailRow :=
  rs.foldl (fun m r => if r.date < minDate then m else dinsert r.date r m) acc

/-- Page loop of fetch_detail_trend_map (source lines 104-121), with the
remaining page budget as fuel.  A failed request raises; a page that
parses to zero rows ends the loop; a page whose oldest (last) row is
dated before min_date ends the loop after accumulation. -/
def fetchDetailLoop (pages : Nat → PageOutcome DetailRow) (minDate : Date) :
    Nat → Nat → Dict DetailRow → Except Unit (Dict DetailRow)
  | 0, _, acc => .ok acc
  | fuel + 1, page, acc =>
    match pages page with
    | .fail => .error ()
    | .rows [] => .ok acc
    | .rows (r :: rs) =>
      let acc2 := insertDetailRows minDate acc (r :: rs)
      if (rs.getLastD r).date < minDate then .ok acc2
      else fetchDetailLoop pages minDate fuel (page + 1) acc2

/-- fetch_detail_trend_map (source lines 101-123): drive the page loop
from page 1 over at most max_pages pages. -/
def fetch_detail_trend_map (pages : Nat → PageOutcome DetailRow)
    (max_pages : Nat) (min_date : Date) : Except Unit (Dict DetailRow) :=
  fetchDetailLoop pages min_date max_pages 1 []

/-- Accumulation of one page of close rows into the close map. -/
def insertKospiRows (minDate : Date) (acc : Dict ℚ) (rs : List (Date × ℚ)) : Dict ℚ :=
  rs.foldl (fun m p => if p.1 < minDate then m else dinsert p.1 p.2 m) acc

/-- Page loop of fetch_kospi_close_map (source lines 147-163), same
shape as the detail loop. -/
def fetchKospiLoop (pages : Nat → PageOutcome (Date × ℚ)) (minDate : Date) :
    Nat → Nat → Dict ℚ → Except Unit (Dict ℚ)
  | 0, _, acc => .ok acc
  | fuel + 1, page, acc =>
    match pages page with
    | .fail => .error ()
    | .rows [] => .ok acc
    | .rows (r :: rs) =>
      let acc2 := insertKospiRows minDate acc (r :: rs)
      if (rs.getLastD r).1 < minDate then .ok acc2
      else fetchKospiLoop pages minDate fuel (page + 1) acc2

/-- fetch_kospi_close_map (source lines 144-165). -/
def fetch_kospi_close_map (pages : Nat → PageOutcome (Date × ℚ))
    (max_pages : Nat) (min_date : Date) : Except Unit (Dict ℚ) :=
  fetchKospiLoop pages min_date max_pages 1 []

/-! ### Dataset store load (load_existing_data, lines 168-210) -/

/-- JSON values, the possible results of json.loads. -/
inductive JVal where
  | jnull : JVal
  | jbool : Bool → JVal
  | jnum : ℚ → JVal
  | jstr : String → JVal
  | jarr : List JVal → JVal
  | jobj : List (String × JVal) → JVal

/-- Lookup in a JSON object, dict.get(k). -/
def jget (k : String) : List (String × JVal) → Option JVal
  | [] => none
  | (k2, v) :: rest => if k = k2 then some v else jget k rest

/-- State of the dataset file on disk: absent, present but not valid
JSON (json.loads raises), or parsed JSON content. -/
inductive FileState where
  | missing : FileState
  | unreadable : FileState
  | content : JVal → FileState

/-- Model of int(x) on a JSON field value: truncates numbers, converts
booleans, parses pure integer strings; anything else (null, list,
object, non-integer string) raises. -/
def pyIntOf : JVal → Except Unit Int
  | .jnum q => .ok (truncQ q)
  | .jbool b => .ok (if b then 1 else 0)
  | .jstr s =>
    match stripWs s |>.toList with
    | '+' :: ds => if ds ≠ [] ∧ ds.all Char.isDigit then .ok (digitsToNat ds : Int) else .error ()
    | '-' :: ds => if ds ≠ [] ∧ ds.all Char.isDigit then .ok (-(digitsToNat ds : Int)) else .error ()
    | ds => if ds ≠ [] ∧ ds.all Char.isDigit then .ok (digitsToNat ds : Int) else .error ()
  | _ => .error ()

/-- Model of parse_float(str(raw)) for a present, non-null kospiClose
field: a JSON number round-trips through its string form, a string goes
through parse_float, and anything else stringifies to non-numeric text. -/
def closeOfJVal : JVal → Option ℚ
  | .jnum q => some q
  | .jstr s => parse_float (some s)
  | _ => none

/-- Value kept in row_map for one well-formed JSON row, or an exception
if a flow field cannot be converted with int(). -/
def loadRowRec (date : Date) (fields : List (String × JVal)) (close : Option ℚ) :
    Except Unit Rec := do
  let geti := fun name => pyIntOf ((jget name fields).getD (.jnum 0))
  let individual ← geti "individual"
  let foreignv ← geti "foreign"
  let institution ← geti "institution"
  let financialInvestment ← geti "financialInvestment"
  let insurance ← geti "insurance"
  let investmentTrust ← geti "investmentTrust"
  let bank ← geti "bank"
  let otherFinancial ← geti "otherFinancial"
  let pension ← geti "pension"
  let otherCorporation ← geti "otherCorporation"
  return {
      date := date
      flows :=
        { individual := individual, foreign := foreignv, institution := institution
          financialInvestment := financialInvestment, insurance := insurance
          investmentTrust := investmentTrust, bank := bank
          otherFinancial := otherFinancial, pension := pension
          otherCorporation := otherCorporation }
      kospiClose := close.map round2 }

/-- One step of the row loop of load_existing_data (source lines
180-204), threading (row_map, missing_kospi, earliest_kospi_existing).
A row that is not a JSON object raises (row.get on a non-dict); a row
whose date is not a string is skipped. -/
def loadRowStep (state : Dict Rec × Bool × Option Date) (row : JVal) :
    Except Unit (Dict Rec × Bool × Option Date) :=
  match row with
  | .jobj fields =>
    match jget "date" fields with
    | some (.jstr date) =>
      let raw := jget "kospiClose" fields
      let close : Option ℚ :=
        match raw with
        | none => none
        | some .jnull => none
        | some v => closeOfJVal v
      let missing2 := if close.isNone then true else state.2.1
      let earliest2 :=
        if close.isSome then
          match state.2.2 with
          | none => some date
          | some e => if date < e then some date else some e
        else state.2.2
      (loadRowRec date fields close).map fun r => (dinsert date r state.1, missing2, earliest2)
    | _ => .ok state
  | _ => .error ()

/-- load_existing_data (source lines 168-210): a missing file gives the
empty result; unreadable JSON raises out of json.loads; a non-object
top level raises at payload.get; a "data" value that is not a list
gives the empty result; otherwise the rows are folded, and an empty
row_map again gives the empty result. -/
def load_existing_data (fs : FileState) :
    Except Unit (Dict Rec × Option Date × Bool × Option Date) :=
  match fs with
  | .missing => .ok ([], none, true, none)
  | .unreadable => .error ()
  | .content j =>
    match j with
    | .jobj fields =>
      match (jget "data" fields).getD (.jarr []) with
      | .jarr rows =>
        (rows.foldlM loadRowStep ([], false, none)).map fun st =>
          if st.1 = [] then ([], none, true, none)
          else (st.1, minKey st.1, st.2.1, st.2.2)
      | _ => .ok ([], none, true, none)
    | _ => .error ()

/-! ### Dataset reconciler (main, source lines 237-263)

The script pins historical_start_date to the module constant; the
reconciliation itself (spec section 4.4) is a pure function of the
existing map, the two fetched maps and that date, which is how it is
embedded here. -/

/-- merged_map (source lines 237-241): overlay the fetched detail rows
on the existing rows with fetched precedence, then keep only dates at
or after historical_start_date.  A fetched row carries no kospiClose
key, so as a stored record its close is None. -/
def mergedOf (existing : Dict Rec) (fetched : Dict DetailRow) (start : Date) : Dict Rec :=
  (dmerge existing (fetched.map fun p => (p.1, recOfDetail p.2))).filter
    fun p => decide (start ≤ p.1)

/-- rows (source line 246): the merged records listed by sorted date
key. -/
def sortedRows (m : Dict Rec) : List Rec :=
  (List.insertionSort (fun a b : Date => a ≤ b) (dkeys m)).filterMap fun d => dget d m

/-- Close overlay for one row (source lines 248-254): with
earliest_kospi_date the min key of the fetched close map, a row dated
strictly before it and absent from the map has its close forced to
None; otherwise the close is the fetched value when present, else the
prior value carried on the merged record.  The truthiness test on
earliest_kospi_date is false only for None or the empty string. -/
def updateClose (kospi : Dict ℚ) (r : Rec) : Rec :=
  match minKey kospi with
  | some e =>
    if e ≠ "" ∧ r.date < e ∧ dget r.date kospi = none then
      { r with kospiClose := none }
    else
      { r with kospiClose :=
          match dget r.date kospi with
          | some c => some c
          | none => r.kospiClose }
  | none =>
    { r with kospiClose :=
        match dget r.date kospi with
        | some c => some c
        | none => r.kospiClose }

/-- Close overlay pass over the sorted rows. -/
def overlayClose (kospi : Dict ℚ) (rows : List Rec) : List Rec :=
  rows.map (updateClose kospi)

/-- Forward-fill pass (source lines 256-263): keep a running last known
close; a numeric close updates it, a missing close is replaced by
round(last_known, 2) when a last known value exists. -/
def fillClose : Option ℚ → List Rec → List Rec
  | _, [] => []
  | last, r :: rs =>
    match r.kospiClose with
    | some c => r :: fillClose (some c) rs
    | none =>
      match last with
      | some v => { r with kospiClose := some (round2 v) } :: fillClose (some v) rs
      | none => r :: fillClose none rs

/-- The reconciliation core of main (source lines 237-263): merge,
abort with RuntimeError when the merged map is empty, sort by date,
overlay closes, forward-fill.  The file write at line 280 happens only
after this has produced a value. -/
def reconcileCore (existing : Dict Rec) (fetched : Dict DetailRow)
    (kospi : Dict ℚ) (start : Date) : Except Unit (List Rec) :=
  if mergedOf existing fetched start = [] then .error ()
  else .ok (fillClose none
    (overlayClose kospi (sortedRows (mergedOf existing fetched start))))

/-! ### Backfill decision engine (main, source lines 220-233) -/

/-- BOOTSTRAP_MAX_PAGES (source line 14). -/
def BOOTSTRAP_MAX_PAGES : Nat := 700

/-- RECENT_REFRESH_PAGES (source line 15). -/
def RECENT_REFRESH_PAGES : Nat := 20

/-- HISTORICAL_START_DATE (source line 13). -/
def HISTORICAL_START_DATE : Date := "2005-01-03"

/-- Gregorian leap-year test. -/
def isLeap (y : Nat) : Bool :=
  (y % 4 == 0 && y % 100 != 0) || y % 400 == 0

/-- Length of a month in the proleptic Gregorian calendar. -/
def daysInMonth (y m : Nat) : Nat :=
  if m = 2 then (if isLeap y then 29 else 28)
  else if m = 4 ∨ m = 6 ∨ m = 9 ∨ m = 11 then 30
  else if 1 ≤ m ∧ m ≤ 12 then 31
  else 0

/-- Days in year y before the first day of month m. -/
def daysBeforeMonth (y : Nat) : Nat → Nat
  | 0 => 0
  | m + 1 => daysBeforeMonth y m + daysInMonth y m

/-- Proleptic Gregorian day number, as Python date.toordinal: day 1 is
0001-01-01. -/
def toOrdinal : Nat × Nat × Nat → Nat
  | (y, m, d) =>
    let p := y - 1
    365 * p + p / 4 + p / 400 + daysBeforeMonth y m + d - p / 100

/-- Model of datetime.strptime(s, "%Y-%m-%d").date(): a ten-character
ISO date with valid month and day, anything else raising (None here). -/
def parseISO (s : String) : Option (Nat × Nat × Nat) :=
  match s.toList with
  | [y1, y2, y3, y4, '-', m1, m2, '-', d1, d2] =>
    if [y1, y2, y3, y4, m1, m2, d1, d2].all Char.isDigit then
      let y := digitsToNat [y1, y2, y3, y4]
      let m := digitsToNat [m1, m2]
      let d := digitsToNat [d1, d2]
      if 1 ≤ m ∧ m ≤ 12 ∧ 1 ≤ d ∧ d ≤ daysInMonth y m then some (y, m, d) else none
    else none
  | _ => none

/-- Flow-series backfill decision (source lines 220-226): bootstrap
when no earliest date exists (or it is the falsy empty string), else
when the signed day gap from the historical start exceeds 7; a date
that strptime cannot parse raises. -/
def needs_backfill_of (earliest_existing : Option Date) (start : Date) :
    Except Unit Bool :=
  match earliest_existing with
  | none => .ok true
  | some e =>
    if e = "" then .ok true
    else
      match parseISO e, parseISO start with
      | some ed, some td => .ok (decide ((toOrdinal ed : Int) - (toOrdinal td : Int) > 7))
      | _, _ => .error ()

/-- Close-series backfill decision (source lines 227-232): bootstrap
when the flow series needs one, or a record lacks a close, or no close
exists at all, or the earliest close date is after the start (string
comparison). -/
def needs_kospi_backfill_of (nb missing_kospi : Bool)
    (earliest_kospi_existing : Option Date) (start : Date) : Bool :=
  nb || missing_kospi ||
    match earliest_kospi_existing with
    | none => true
    | some e => decide (start < e)

/-- Page budget from a backfill flag (source lines 226 and 233). -/
def max_pages_of (nb : Bool) : Nat :=
  if nb then BOOTSTRAP_MAX_PAGES else RECENT_REFRESH_PAGES

/-! ### Concrete scenario data used by the claim theorems -/

/-- All-zero flow fields, for rows whose flow values are irrelevant. -/
def zeroFlows : FlowFields := ⟨0, 0, 0, 0, 0, 0, 0, 0, 0, 0⟩

/-- A stored record with the given date and close and zero flows. -/
def mkRec (d : Date) (c : Option ℚ) : Rec := ⟨d, zeroFlows, c⟩

/-- Existing dataset of the section-8 scenario: rows for
2024-01-02 .. 2024-01-05 with no close prices. -/
def exScenario : Dict Rec :=
  [("2024-01-02", mkRec "2024-01-02" none),
   ("2024-01-03", mkRec "2024-01-03" none),
   ("2024-01-04", mkRec "2024-01-04" none),
   ("2024-01-05", mkRec "2024-01-05" none)]

/-- Flow values of the freshly fetched 2024-01-08 row. -/
def flows8 : FlowFields := ⟨100, 200, 300, 1, 2, 3, 4, 5, 6, 7⟩

/-- Fetched detail map of the scenario: it adds 2024-01-08. -/
def fetchedScenario : Dict DetailRow := [("2024-01-08", ⟨"2024-01-08", flows8⟩)]

/-- Fetched close map of the scenario: 2024-01-03 at 2500.12. -/
def kospiScenario : Dict ℚ := [("2024-01-03", 2500.12)]

/-- Record sequence the code actually produces on the scenario. -/
def outScenario : List Rec :=
  [mkRec "2024-01-02" none,
   mkRec "2024-01-03" (some 2500.12),
   mkRec "2024-01-04" (some 2500.12),
   mkRec "2024-01-05" (some 2500.12),
   ⟨"2024-01-08", flows8, some 2500.12⟩]

/-- Merged map of the scenario, evaluated. -/
def mergedScenario : Dict Rec :=
  [("2024-01-02", mkRec "2024-01-02" none),
   ("2024-01-03", mkRec "2024-01-03" none),
   ("2024-01-04", mkRec "2024-01-04" none),
   ("2024-01-05", mkRec "2024-01-05" none),
   ("2024-01-08", ⟨"2024-01-08", flows8, none⟩)]

/-- Scenario rows after the date sort. -/
def rowsScenario : List Rec :=
  [mkRec "2024-01-02" none, mkRec "2024-01-03" none, mkRec "2024-01-04" none,
   mkRec "2024-01-05" none, ⟨"2024-01-08", flows8, none⟩]

/-- Scenario rows after the close overlay. -/
def rows2Scenario : List Rec :=
  [mkRec "2024-01-02" none, mkRec "2024-01-03" (some 2500.12),
   mkRec "2024-01-04" none, mkRec "2024-01-05" none,
   ⟨"2024-01-08", flows8, none⟩]

/-- Evaluation of the reconciliation core on the scenario, staged
through the four passes of main. -/
theorem scenario_eval :
    reconcileCore exScenario fetchedScenario kospiScenario "2024-01-01" =
      .ok outScenario := by
  have h1 : mergedOf exScenario fetchedScenario "2024-01-01" = mergedScenario := by
    with_unfolding_all rfl
  have h2 : sortedRows mergedScenario = rowsScenario := by
    with_unfolding_all rfl
  have h3 : overlayClose kospiScenario rowsScenario = rows2Scenario := by
    with_unfolding_all rfl
  have h4 : fillClose none rows2Scenario = outScenario := by
    with_unfolding_all rfl
  unfold reconcileCore
  rw [h1, if_neg (by decide : ¬ mergedScenario = []), h2, h3, h4]

/-! ### Claim theorems -/

/-- C10: numeric cell parsing strips thousands-separator commas and
leading plus signs; the empty string gives 0 for flow fields and an
absent value for the close field; non-numeric residue gives 0 for flow
fields, while a close cell that does not parse as a float discards the
row.  Concretely "1,234" parses to 1234, "-560" to -560, "" to 0
(flow) or absent (close), and "abc" to 0 (flow) or a discarded row
(close). -/
theorem c10_numeric_parsing :
    parse_number (some "1,234") = 1234
    ∧ parse_number (some "-560") = -560
    ∧ parse_number (some "") = 0
    ∧ parse_float (some "") = none
    ∧ parse_number (some "abc") = 0
    ∧ parse_float (some "abc") = none
    ∧ parse_number (some "+1,234") = 1234
    ∧ parse_float (some "+2,500.12") = some (2500.12 : ℚ)
    ∧ parse_kospi_row ["2024.01.03", "abc"] = none
    ∧ parse_kospi_row ["2024.01.03", "2,500.12"] = some ("2024-01-03", (2500.12 : ℚ))
    ∧ parse_detail_row
        ["24.01.03", "1,234", "-560", "abc", "", "0", "0", "0", "0", "0", "0"] =
      some ⟨"2024-01-03", ⟨1234, -560, 0, 0, 0, 0, 0, 0, 0, 0⟩⟩ := by
  refine ⟨?_, ?_, ?_, ?_, ?_, ?_, ?_, ?_, ?_, ?_, ?_⟩ <;> with_unfolding_all rfl

/-- C4 counterexample: a file whose content is not valid JSON does not
load as an empty dataset, and neither does a file whose top level is a
JSON array: in both cases load_existing_data raises (json.loads,
respectively payload.get on a non-dict). -/
theorem c4_counterexample :
    load_existing_data .unreadable = .error ()
    ∧ load_existing_data (.content (.jarr [])) = .error () := ⟨rfl, rfl⟩

/-- C4 amended: a missing file loads as the empty dataset, as does a
well-formed JSON object whose "data" value is not a list; but a file
whose bytes are not valid JSON, or whose top level is not a JSON
object, or that contains a non-object row, makes the load raise
instead of yielding an empty dataset. -/
theorem c4_load_tolerance (fields : List (String × JVal)) (v j row : JVal)
    (rest : List JVal)
    (hv : jget "data" fields = some v) (hvarr : ∀ xs, v ≠ JVal.jarr xs)
    (hj : ∀ g, j ≠ JVal.jobj g) (hrow : ∀ g, row ≠ JVal.jobj g) :
    load_existing_data .missing = .ok ([], none, true, none)
    ∧ load_existing_data (.content (.jobj fields)) = .ok ([], none, true, none)
    ∧ load_existing_data .unreadable = .error ()
    ∧ load_existing_data (.content j) = .error ()
    ∧ load_existing_data
        (.content (.jobj [("data", .jarr (row :: rest))])) = .error () := by
  refine ⟨rfl, ?_, rfl, ?_, ?_⟩
  · cases v with
    | jarr xs => exact absurd rfl (hvarr xs)
    | jnull => simp only [load_existing_data, hv, Option.getD_some]
    | jbool b => simp only [load_existing_data, hv, Option.getD_some]
    | jnum q => simp only [load_existing_data, hv, Option.getD_some]
    | jstr s => simp only [load_existing_data, hv, Option.getD_some]
    | jobj g => simp only [load_existing_data, hv, Option.getD_some]
  · cases j with
    | jobj g => exact absurd rfl (hj g)
    | jnull => rfl
    | jbool b => rfl
    | jnum q => rfl
    | jstr s => rfl
    | jarr xs => rfl
  · simp only [load_existing_data, jget, if_pos rfl, Option.getD_some]
    cases row with
    | jobj g => exact absurd rfl (hrow g)
    | jnull => rfl
    | jbool b => rfl
    | jnum q => rfl
    | jstr s => rfl
    | jarr xs => rfl

/-- C4 witness: the amended load tolerance at concrete inputs. -/
theorem c4_load_tolerance_witness :
    load_existing_data .missing = .ok ([], none, true, none)
    ∧ load_existing_data (.content (.jobj [("data", .jstr "x")])) =
        .ok ([], none, true, none)
    ∧ load_existing_data .unreadable = .error ()
    ∧ load_existing_data (.content (.jarr [])) = .error ()
    ∧ load_existing_data
        (.content (.jobj [("data", .jarr [.jstr "row"])])) = .error () :=
  c4_load_tolerance [("data", .jstr "x")] (.jstr "x") (.jarr []) (.jstr "row") []
    rfl (fun _ h => JVal.noConfusion h) (fun _ h => JVal.noConfusion h)
    (fun _ h => JVal.noConfusion h)

/-- C5 counterexample: a run on which the close-price series yields
zero usable records while none were previously persisted either (the
single existing record has no close, fetched flow and close maps are
empty) does not raise: reconciliation succeeds and would persist a
dataset whose closes are all null. -/
theorem c5_counterexample :
    reconcileCore [("2024-01-02", mkRec "2024-01-02" none)] [] [] "2005-01-03" =
      .ok [mkRec "2024-01-02" none]
    ∧ reconcileCore [("2024-01-02", mkRec "2024-01-02" none)] [] [] "2005-01-03" ≠
      .error () := by
  constructor
  · with_unfolding_all rfl
  · intro h
    rw [show reconcileCore [("2024-01-02", mkRec "2024-01-02" none)] [] [] "2005-01-03" =
        .ok [mkRec "2024-01-02" none] by with_unfolding_all rfl] at h
    exact Except.noConfusion h

/-- C5 amended: the run raises its fatal RuntimeError before the write
exactly when the merged flow record set after overlay is empty; an
empty close series on its own is not fatal.  For every input, the
reconciliation errors out if and only if the merged map is empty. -/
theorem c5_empty_merge_fatal (existing : Dict Rec) (fetched : Dict DetailRow)
    (kospi : Dict ℚ) (start : Date) :
    reconcileCore existing fetched kospi start = .error ()
      ↔ mergedOf existing fetched start = [] := by
  unfold reconcileCore
  by_cases h : mergedOf existing fetched start = []
  · simp [h]
  · simp [h]

/-- C3 counterexample: with page 1 delivering one row dated 2024-01-02
and page 2 failing (network error or non-200), the fetch does not
return the accumulated page-1 rows: the failure propagates as an
exception and aborts the run. -/
theorem c3_counterexample :
    fetch_detail_trend_map
      (fun n => if n = 1 then .rows [⟨"2024-01-02", zeroFlows⟩] else .fail)
      3 "2005-01-03" = .error ()
    ∧ fetch_detail_trend_map
      (fun n => if n = 1 then .rows [⟨"2024-01-02", zeroFlows⟩] else .fail)
      3 "2005-01-03" ≠
      .ok (insertDetailRows "2005-01-03" [] [⟨"2024-01-02", zeroFlows⟩]) := by
  constructor
  · with_unfolding_all rfl
  · intro h
    rw [show fetch_detail_trend_map
      (fun n => if n = 1 then .rows [⟨"2024-01-02", zeroFlows⟩] else .fail)
      3 "2005-01-03" = .error () by with_unfolding_all rfl] at h
    exact Except.noConfusion h

/-- C3 amended: only a page whose body parses to zero rows is treated
as "no more pages", truncating the fetch to the rows already
accumulated; a failed request (network error or non-200) on a reached
page propagates as an exception and aborts the fetch, and with it the
run, regardless of previously accumulated pages. -/
theorem c3_page_failure (pages qages : Nat → PageOutcome DetailRow)
    (n m : Nat) (minD : Date) (r : DetailRow) (rs : List DetailRow)
    (h1 : pages 1 = .rows (r :: rs))
    (h2 : ¬ (rs.getLastD r).date < minD)
    (h3 : pages 2 = .fail)
    (h4 : qages 1 = .rows (r :: rs))
    (h5 : qages 2 = .rows []) :
    fetch_detail_trend_map pages (n + 2) minD = .error ()
    ∧ fetch_detail_trend_map qages (m + 2) minD =
        .ok (insertDetailRows minD [] (r :: rs)) := by
  constructor
  · show fetchDetailLoop pages minD (n + 2) 1 [] = .error ()
    rw [fetchDetailLoop, h1]
    simp only [if_neg h2]
    rw [fetchDetailLoop, h3]
  · show fetchDetailLoop qages minD (m + 2) 1 [] =
      .ok (insertDetailRows minD [] (r :: rs))
    rw [fetchDetailLoop, h4]
    simp only [if_neg h2]
    rw [fetchDetailLoop, h5]

/-- C3 witness: the amended page-failure behaviour at concrete pages. -/
theorem c3_page_failure_witness :
    fetch_detail_trend_map
      (fun n => if n = 1 then .rows [⟨"2024-01-08", flows8⟩] else .fail)
      2 "2005-01-03" = .error ()
    ∧ fetch_detail_trend_map
      (fun n => if n = 1 then .rows [⟨"2024-01-08", flows8⟩] else .rows [])
      2 "2005-01-03" =
        .ok (insertDetailRows "2005-01-03" [] [⟨"2024-01-08", flows8⟩]) :=
  c3_page_failure
    (fun n => if n = 1 then .rows [⟨"2024-01-08", flows8⟩] else .fail)
    (fun n => if n = 1 then .rows [⟨"2024-01-08", flows8⟩] else .rows [])
    0 0 "2005-01-03" ⟨"2024-01-08", flows8⟩ []
    rfl (by with_unfolding_all decide) rfl rfl rfl

/-- C1 counterexample: on the section-8 scenario the code produces 5
records, not 6, and the trailing 2024-01-08 record receives the
forward-filled close 2500.12 rather than remaining null. -/
theorem c1_counterexample :
    reconcileCore exScenario fetchedScenario kospiScenario "2024-01-01" =
      .ok outScenario
    ∧ outScenario.length ≠ 6
    ∧ outScenario.map (fun r => r.kospiClose) ≠
        [none, some 2500.12, some 2500.12, some 2500.12, none] := by
  refine ⟨scenario_eval, ?_, ?_⟩
  · decide
  · intro h
    simp [outScenario, mkRec] at h

/-- C1 amended: on the scenario (existing rows 2024-01-02 .. 2024-01-05
without closes, start 2024-01-01, fetched flow row 2024-01-08, fetched
close {2024-01-03: 2500.12}) the output has exactly 5 records, dated
01-02, 01-03, 01-04, 01-05, 01-08; the close is null for 01-02,
2500.12 for 01-03, and 2500.12 forward-filled for 01-04, 01-05 and
also for the trailing 01-08 record, which the forward-fill pass fills
from the last known close instead of leaving null. -/
theorem c1_scenario :
    reconcileCore exScenario fetchedScenario kospiScenario "2024-01-01" =
      .ok [mkRec "2024-01-02" none,
           mkRec "2024-01-03" (some 2500.12),
           mkRec "2024-01-04" (some 2500.12),
           mkRec "2024-01-05" (some 2500.12),
           ⟨"2024-01-08", flows8, some 2500.12⟩] := scenario_eval

/-- C2 counterexample: with an existing record for 2024-01-02 carrying
close 100 and one for 2024-01-05 without a close, and a fetched close
map containing only {2024-01-05: 200}, the earliest close after
overlay in the claim's sense is 2024-01-02; yet the code nulls the
pre-existing 100 (its cutoff is the earliest *fetched* close date),
so the output does not retain it. -/
theorem c2_counterexample :
    reconcileCore
      [("2024-01-02", mkRec "2024-01-02" (some 100)),
       ("2024-01-05", mkRec "2024-01-05" none)]
      [] [("2024-01-05", (200 : ℚ))] "2024-01-01" =
      .ok [mkRec "2024-01-02" none, mkRec "2024-01-05" (some 200)]
    ∧ [mkRec "2024-01-02" none, mkRec "2024-01-05" (some 200)].map
        (fun r => r.kospiClose) ≠ [some 100, some 200] := by
  constructor
  · with_unfolding_all rfl
  · with_unfolding_all decide

/-- C2 amended: the cutoff date is the earliest date of the
fetched-close map alone, not of all closes present after overlay.  A
merged record dated strictly before that date and absent from the
fetched map has its close forced to null even if it carried one; a
record whose date is in the fetched map gets the fetched value; any
other record keeps the close carried on the merged record (the
pre-existing value when the record was not replaced by a fetched flow
row, null when it was). -/
theorem c2_close_overlay (kospi : Dict ℚ) (r : Rec) (e : Date)
    (he : minKey kospi = some e) (hne : e ≠ "") :
    (r.date < e → dget r.date kospi = none → (updateClose kospi r).kospiClose = none)
    ∧ (∀ c, dget r.date kospi = some c → (updateClose kospi r).kospiClose = some c)
    ∧ (¬ r.date < e → dget r.date kospi = none →
        (updateClose kospi r).kospiClose = r.kospiClose) := by
  refine ⟨?_, ?_, ?_⟩
  · intro hlt hnone
    simp only [updateClose, he]
    rw [if_pos ⟨hne, hlt, hnone⟩]
  · intro c hc
    have hnlt : ¬ (e ≠ "" ∧ r.date < e ∧ dget r.date kospi = none) := by
      intro h
      rw [hc] at h
      exact Option.noConfusion h.2.2
    simp only [updateClose, he]
    rw [if_neg hnlt]
    simp [hc]
  · intro hlt hnone
    have hnlt2 : ¬ (e ≠ "" ∧ r.date < e ∧ dget r.date kospi = none) :=
      fun h => hlt h.2.1
    simp only [updateClose, he]
    rw [if_neg hnlt2]
    simp [hnone]

/-- C2 witness: the amended overlay semantics at a concrete map and
record. -/
theorem c2_close_overlay_witness :
    ("2024-01-02" < "2024-01-05" →
      dget "2024-01-02" [("2024-01-05", (200 : ℚ))] = none →
      (updateClose [("2024-01-05", (200 : ℚ))]
          (mkRec "2024-01-02" (some 100))).kospiClose = none)
    ∧ (∀ c, dget "2024-01-02" [("2024-01-05", (200 : ℚ))] = some c →
        (updateClose [("2024-01-05", (200 : ℚ))]
            (mkRec "2024-01-02" (some 100))).kospiClose = some c)
    ∧ (¬ "2024-01-02" < "2024-01-05" →
        dget "2024-01-02" [("2024-01-05", (200 : ℚ))] = none →
        (updateClose [("2024-01-05", (200 : ℚ))]
            (mkRec "2024-01-02" (some 100))).kospiClose =
          (mkRec "2024-01-02" (some 100)).kospiClose) :=
  c2_close_overlay [("2024-01-05", (200 : ℚ))] (mkRec "2024-01-02" (some 100))
    "2024-01-05" rfl (by decide)

/-! ### Forward-fill characterization (C6) -/

/-- Last non-null value of a close sequence, seeded with a prior last
known value. -/
def lastKnown : Option ℚ → List (Option ℚ) → Option ℚ
  | last, [] => last
  | last, c :: cs =>
    match c with
    | some x => lastKnown (some x) cs
    | none => lastKnown last cs

/-- The forward-fill pass viewed on close values alone. -/
def fillMap : Option ℚ → List (Option ℚ) → List (Option ℚ)
  | _, [] => []
  | last, c :: cs =>
    match c with
    | some x => some x :: fillMap (some x) cs
    | none =>
      match last with
      | some v => some (round2 v) :: fillMap (some v) cs
      | none => none :: fillMap none cs

/-- fillClose changes only the close values, and on them acts as
fillMap. -/
theorem fillClose_closes (l : List Rec) :
    ∀ last, (fillClose last l).map (fun r => r.kospiClose) =
      fillMap last (l.map fun r => r.kospiClose) := by
  induction l with
  | nil => intro last; rfl
  | cons r rs ih =>
    intro last
    cases hc : r.kospiClose with
    | some c => simp [fillClose, fillMap, hc, ih]
    | none =>
      cases last with
      | some v => simp [fillClose, fillMap, hc, ih]
      | none => simp [fillClose, fillMap, hc, ih]

/-- A non-null close passes through the fill pass unchanged. -/
theorem fillMap_getD_some (l : List (Option ℚ)) :
    ∀ (last : Option ℚ) (i : Nat) (c : ℚ), l.getD i none = some c →
      (fillMap last l).getD i none = some c := by
  induction l with
  | nil => intro last i c h; simp [List.getD] at h
  | cons a as ih =>
    intro last i c h
    cases i with
    | zero =>
      rw [List.getD_cons_zero] at h
      subst h
      simp [fillMap]
    | succ i =>
      rw [List.getD_cons_succ] at h
      cases a with
      | some x => simpa [fillMap] using ih (some x) i c h
      | none =>
        cases last with
        | some v => simpa [fillMap] using ih (some v) i c h
        | none => simpa [fillMap] using ih none i c h

/-- A null close becomes the rounded nearest earlier non-null value
(seeded by the running last-known), and stays null when there is
none. -/
theorem fillMap_getD_none (l : List (Option ℚ)) :
    ∀ (last : Option ℚ) (i : Nat), i < l.length → l.getD i none = none →
      (fillMap last l).getD i none = (lastKnown last (l.take i)).map round2 := by
  induction l with
  | nil => intro last i hi; exact absurd hi (by simp)
  | cons a as ih =>
    intro last i hi h
    cases i with
    | zero =>
      rw [List.getD_cons_zero] at h
      subst h
      cases last with
      | some v => simp [fillMap, lastKnown]
      | none => simp [fillMap, lastKnown]
    | succ i =>
      rw [List.getD_cons_succ] at h
      have hi2 : i < as.length := by
        have := hi
        simp only [List.length_cons] at this
        omega
      cases a with
      | some x => simpa [fillMap, lastKnown] using ih (some x) i hi2 h
      | none =>
        cases last with
        | some v => simpa [fillMap, lastKnown] using ih (some v) i hi2 h
        | none => simpa [fillMap, lastKnown] using ih none i hi2 h

/-- C6: in the forward-fill pass over the reconciled, date-sorted rows
(started with no last-known value), a row whose close is null receives
the nearest earlier non-null close, rounded to 2 decimals — so every
date strictly before the first known close keeps a null close (the
nearest-earlier value is then none), and every null inside or after a
run following a known close receives that rounded value — while a row
with a non-null close keeps it. -/
theorem c6_forward_fill (rows : List Rec) (i : Nat) (hi : i < rows.length) :
    ((rows.map fun r => r.kospiClose).getD i none = none →
      ((fillClose none rows).map fun r => r.kospiClose).getD i none =
        (lastKnown none ((rows.map fun r => r.kospiClose).take i)).map round2)
    ∧ (∀ c, (rows.map fun r => r.kospiClose).getD i none = some c →
        ((fillClose none rows).map fun r => r.kospiClose).getD i none = some c) := by
  constructor
  · intro h
    rw [fillClose_closes]
    exact fillMap_getD_none (rows.map fun r => r.kospiClose) none i (by simpa) h
  · intro c h
    rw [fillClose_closes]
    exact fillMap_getD_some (rows.map fun r => r.kospiClose) none i c h

/-- C6 witness: with a known close at position 0 and a null at
position 1, the fill pass assigns position 1 the rounded nearest
earlier non-null close. -/
theorem c6_forward_fill_witness :
    ((fillClose none [mkRec "2024-01-03" (some 2500.12),
        mkRec "2024-01-04" none]).map fun r => r.kospiClose).getD 1 none =
      some (round2 2500.12) :=
  (c6_forward_fill [mkRec "2024-01-03" (some 2500.12), mkRec "2024-01-04" none] 1
    (by decide)).1 rfl

/-! ### Backfill classification (C9) -/

/-- listMin finds no minimum only on the empty list. -/
theorem listMin_eq_none {ds : List Date} : listMin ds = none ↔ ds = [] := by
  cases ds with
  | nil => simp [listMin]
  | cons d rest =>
    simp only [listMin]
    cases listMin rest <;> simp

/-- The minimum is a member. -/
theorem listMin_mem : ∀ {ds : List Date} {m : Date}, listMin ds = some m → m ∈ ds := by
  intro ds
  induction ds with
  | nil => intro m h; exact absurd h (by simp [listMin])
  | cons d rest ih =>
    intro m h
    simp only [listMin] at h
    cases hr : listMin rest with
    | none =>
      rw [hr] at h
      exact (Option.some_injective _ h) ▸ List.mem_cons_self d rest
    | some mr =>
      rw [hr] at h
      have hm : m = min d mr := (Option.some_injective _ h).symm
      rcases min_choice d mr with hc | hc
      · exact (hm.trans hc) ▸ List.mem_cons_self d rest
      · exact List.mem_cons_of_mem d ((hm.trans hc) ▸ ih hr)

/-- The minimum is a lower bound. -/
theorem listMin_le : ∀ {ds : List Date} {m : Date}, listMin ds = some m →
    ∀ d ∈ ds, m ≤ d := by
  intro ds
  induction ds with
  | nil => intro m h; exact absurd h (by simp [listMin])
  | cons d rest ih =>
    intro m h x hx
    simp only [listMin] at h
    cases hr : listMin rest with
    | none =>
      rw [hr] at h
      have : rest = [] := listMin_eq_none.mp hr
      subst this
      rcases List.mem_singleton.mp hx with hxd
      exact hxd ▸ (Option.some_injective _ h) ▸ le_refl d
    | some mr =>
      rw [hr] at h
      have hm : m = min d mr := (Option.some_injective _ h).symm
      rcases List.mem_cons.mp hx with hxd | hxr
      · exact hxd ▸ hm ▸ min_le_left d mr
      · exact le_trans (hm ▸ min_le_right d mr) (ih hr x hxr)

/-- C9: the flow series is classified bootstrap exactly when no prior
earliest date exists or the signed day gap from the earliest date to
the historical start exceeds 7 days, with the corresponding full or
small page budget; the close series is additionally bootstrap when the
flow flag is set, when some existing record lacks a close, or when no
close exists at a date at or before the historical start (the code's
test that the earliest existing close date is later than the start). -/
theorem c9_backfill_classification (e : Date) (ed td : Nat × Nat × Nat)
    (start : Date) (nb : Bool) (L : List (Date × Option ℚ))
    (he : parseISO e = some ed) (ht : parseISO start = some td) :
    needs_backfill_of none start = .ok true
    ∧ (needs_backfill_of (some e) start = .ok true ↔
        (toOrdinal ed : Int) - toOrdinal td > 7)
    ∧ max_pages_of true = BOOTSTRAP_MAX_PAGES
    ∧ max_pages_of false = RECENT_REFRESH_PAGES
    ∧ (needs_kospi_backfill_of nb (L.any fun p => p.2.isNone)
          (listMin ((L.filter fun p => p.2.isSome).map fun p => p.1)) start = true ↔
        (nb = true ∨ (∃ p ∈ L, p.2 = none)
          ∨ ¬ ∃ d ∈ (L.filter fun p => p.2.isSome).map (fun p => p.1), d ≤ start)) := by
  have hne : e ≠ "" := by
    intro h
    rw [h] at he
    simp [parseISO] at he
  refine ⟨rfl, ?_, rfl, rfl, ?_⟩
  · simp only [needs_backfill_of]
    rw [if_neg hne, he, ht]
    simp
  · unfold needs_kospi_backfill_of
    cases hm : listMin ((L.filter fun p => p.2.isSome).map fun p => p.1) with
    | none =>
      have hnil := listMin_eq_none.mp hm
      rw [hnil]
      simp
    | some mn =>
      have hmem := listMin_mem hm
      have hle := listMin_le hm
      have hiff : start < mn ↔
          ¬ ∃ d ∈ (L.filter fun p => p.2.isSome).map (fun p => p.1), d ≤ start := by
        constructor
        · rintro hlt ⟨d, hd, hdle⟩
          exact absurd (le_trans (hle d hd) hdle) (not_le.mpr hlt)
        · intro hno
          by_contra hnlt
          exact hno ⟨mn, hmem, le_of_not_lt hnlt⟩
      simp only [Bool.or_eq_true, List.any_eq_true, Option.isNone_iff_eq_none,
        decide_eq_true_eq]
      rw [← hiff, or_assoc]

/-- C9 witness: the classification at a concrete earliest date, start
date and record list. -/
theorem c9_backfill_classification_witness :
    needs_backfill_of none "2005-01-03" = .ok true
    ∧ (needs_backfill_of (some "2024-01-02") "2005-01-03" = .ok true ↔
        (toOrdinal (2024, 1, 2) : Int) - toOrdinal (2005, 1, 3) > 7)
    ∧ max_pages_of true = BOOTSTRAP_MAX_PAGES
    ∧ max_pages_of false = RECENT_REFRESH_PAGES
    ∧ (needs_kospi_backfill_of false
          ([(("2024-01-02" : Date), some (100 : ℚ))].any fun p => p.2.isNone)
          (listMin (([(("2024-01-02" : Date), some (100 : ℚ))].filter
            fun p => p.2.isSome).map fun p => p.1)) "2005-01-03" = true ↔
        (false = true ∨ (∃ p ∈ [(("2024-01-02" : Date), some (100 : ℚ))], p.2 = none)
          ∨ ¬ ∃ d ∈ ([(("2024-01-02" : Date), some (100 : ℚ))].filter
              fun p => p.2.isSome).map (fun p => p.1), d ≤ "2005-01-03")) :=
  c9_backfill_classification "2024-01-02" (2024, 1, 2) (2005, 1, 3) "2005-01-03"
    false [("2024-01-02", some 100)] rfl rfl

/-! ### Dict and sort lemmas for the dataset invariants (C7, C8) -/

/-- Membership in the keys of a dict after assignment. -/
theorem mem_dkeys_dinsert {m : Dict α} {x k : Date} {v : α} :
    x ∈ dkeys (dinsert k v m) ↔ x = k ∨ x ∈ dkeys m := by
  induction m with
  | nil => simp [dinsert, dkeys]
  | cons p rest ih =>
    obtain ⟨k2, v2⟩ := p
    by_cases h : k = k2
    · subst h
      simp [dinsert, dkeys]
    · simp only [dinsert, if_neg h, dkeys, List.map_cons, List.mem_cons] at *
      constructor
      · rintro (hx | hx)
        · exact Or.inr (Or.inl hx)
        · rcases ih.mp hx with hx | hx
          · exact Or.inl hx
          · exact Or.inr (Or.inr hx)
      · rintro (hx | hx | hx)
        · exact Or.inr (ih.mpr (Or.inl hx))
        · exact Or.inl hx
        · exact Or.inr (ih.mpr (Or.inr hx))

/-- Assignment preserves distinctness of keys. -/
theorem nodup_dkeys_dinsert {m : Dict α} (k : Date) (v : α)
    (h : (dkeys m).Nodup) : (dkeys (dinsert k v m)).Nodup := by
  induction m with
  | nil => simp [dinsert, dkeys]
  | cons p rest ih =>
    obtain ⟨k2, v2⟩ := p
    simp only [dkeys, List.map_cons, List.nodup_cons] at h
    by_cases hk : k = k2
    · subst hk
      simpa [dinsert, dkeys, List.nodup_cons] using h
    · simp only [dinsert, if_neg hk, dkeys, List.map_cons, List.nodup_cons]
      refine ⟨?_, ih h.2⟩
      intro hmem
      rcases mem_dkeys_dinsert.mp hmem with he | hmem2
      · exact hk he.symm
      · exact h.1 hmem2

/-- Merging keeps keys distinct when the base keys are. -/
theorem nodup_dkeys_dmerge {b : Dict α} :
    ∀ {a : Dict α}, (dkeys a).Nodup → (dkeys (dmerge a b)).Nodup := by
  induction b with
  | nil => intro a h; exact h
  | cons p rest ih =>
    intro a h
    exact ih (nodup_dkeys_dinsert p.1 p.2 h)

/-- A found value belongs to the dict. -/
theorem dget_mem {m : Dict α} {k : Date} {v : α} (h : dget k m = some v) :
    (k, v) ∈ m := by
  induction m with
  | nil => exact absurd h (by simp [dget])
  | cons p rest ih =>
    obtain ⟨k2, v2⟩ := p
    by_cases hk : k = k2
    · subst hk
      have h2 : v2 = v := by simpa [dget] using h
      subst h2
      exact List.mem_cons_self _ _
    · simp only [dget, if_neg hk] at h
      exact List.mem_cons_of_mem _ (ih h)

/-- Every key has a value. -/
theorem mem_dkeys_dget {m : Dict α} {k : Date} (h : k ∈ dkeys m) :
    ∃ v, dget k m = some v := by
  induction m with
  | nil => exact absurd h (by simp [dkeys])
  | cons p rest ih =>
    obtain ⟨k2, v2⟩ := p
    by_cases hk : k = k2
    · subst hk
      exact ⟨v2, by simp [dget]⟩
    · rcases List.mem_cons.mp h with he | hmem
      · exact absurd he hk
      · obtain ⟨v, hv⟩ := ih hmem
        exact ⟨v, by simp [dget, if_neg hk, hv]⟩

/-- Key-and-date agreement: each stored record carries its key as its
date. -/
def KeyInv (m : Dict Rec) : Prop := ∀ p ∈ m, (p.2).date = p.1

/-- Assignment preserves key-and-date agreement. -/
theorem keyInv_dinsert {m : Dict Rec} {k : Date} {v : Rec}
    (hm : KeyInv m) (hv : v.date = k) : KeyInv (dinsert k v m) := by
  induction m with
  | nil =>
    intro p hp
    simp only [dinsert, List.mem_singleton] at hp
    rw [hp]
    exact hv
  | cons q rest ih =>
    obtain ⟨k2, v2⟩ := q
    intro p hp
    by_cases hk : k = k2
    · subst hk
      simp only [dinsert, if_pos rfl] at hp
      rcases List.mem_cons.mp hp with he | hmem
      · rw [he]; exact hv
      · exact hm p (List.mem_cons_of_mem _ hmem)
    · simp only [dinsert, if_neg hk] at hp
      rcases List.mem_cons.mp hp with he | hmem
      · rw [he]; exact hm (k2, v2) (List.mem_cons_self _ _)
      · exact ih (fun q hq => hm q (List.mem_cons_of_mem _ hq)) p hmem

/-- Merging preserves key-and-date agreement when the overlay has it. -/
theorem keyInv_dmerge {b : Dict Rec} :
    ∀ {a : Dict Rec}, KeyInv a → (∀ p ∈ b, (p.2).date = p.1) →
      KeyInv (dmerge a b) := by
  induction b with
  | nil => intro a ha _; exact ha
  | cons p rest ih =>
    intro a ha hb
    exact ih (keyInv_dinsert ha (hb p (List.mem_cons_self _ _)))
      (fun q hq => hb q (List.mem_cons_of_mem _ hq))

/-- The merged map has distinct keys. -/
theorem mergedOf_nodup {existing : Dict Rec} {fetched : Dict DetailRow}
    {start : Date} (hnd : (dkeys existing).Nodup) :
    (dkeys (mergedOf existing fetched start)).Nodup := by
  have h1 : (dkeys (dmerge existing
      (fetched.map fun p => (p.1, recOfDetail p.2)))).Nodup :=
    nodup_dkeys_dmerge hnd
  unfold mergedOf dkeys
  exact (List.Sublist.map Prod.fst (List.filter_sublist _)).nodup h1

/-- The merged map agrees keys with dates when the existing and fetched
maps do. -/
theorem mergedOf_keyInv {existing : Dict Rec} {fetched : Dict DetailRow}
    {start : Date} (hex : KeyInv existing)
    (hf : ∀ p ∈ fetched, (p.2).date = p.1) :
    KeyInv (mergedOf existing fetched start) := by
  have h1 : KeyInv (dmerge existing (fetched.map fun p => (p.1, recOfDetail p.2))) := by
    refine keyInv_dmerge hex ?_
    intro p hp
    obtain ⟨q, hq, hpq⟩ := List.mem_map.mp hp
    rw [← hpq, ← hf q hq]
    rfl
  intro p hp
  exact h1 p (List.mem_filter.mp hp).1

/-- Every key of the merged map is at or after the start date. -/
theorem mergedOf_start {existing : Dict Rec} {fetched : Dict DetailRow}
    {start : Date} {p : Date × Rec} (hp : p ∈ mergedOf existing fetched start) :
    start ≤ p.1 := by
  have := (List.mem_filter.mp hp).2
  exact of_decide_eq_true this

/-- Looking up a list of keys of the dict returns one record per key,
dated by the key. -/
theorem filterMap_dget_map_date {m : Dict Rec} (hv : KeyInv m) :
    ∀ l : List Date, (∀ d ∈ l, d ∈ dkeys m) →
      ((l.filterMap fun d => dget d m).map fun r => r.date) = l := by
  intro l
  induction l with
  | nil => intro _; rfl
  | cons d rest ih =>
    intro hmem
    obtain ⟨v, hval⟩ := mem_dkeys_dget (hmem d (List.mem_cons_self _ _))
    have hdate : v.date = d := hv (d, v) (dget_mem hval)
    simp only [List.filterMap_cons, hval, List.map_cons, hdate]
    rw [ih fun x hx => hmem x (List.mem_cons_of_mem _ hx)]

/-- Dates of the sorted rows are exactly the sorted keys. -/
theorem sortedRows_map_date {m : Dict Rec} (hv : KeyInv m) :
    ((sortedRows m).map fun r => r.date) =
      List.insertionSort (fun a b : Date => a ≤ b) (dkeys m) := by
  unfold sortedRows
  exact filterMap_dget_map_date hv _
    fun d hd => (List.mem_insertionSort (fun a b : Date => a ≤ b)).mp hd

/-- A pairwise-nondecreasing list without duplicates is strictly
increasing. -/
theorem sorted_lt_of_le_nodup {l : List Date}
    (hs : l.Sorted (fun a b : Date => a ≤ b)) (hn : l.Nodup) :
    l.Sorted (fun a b : Date => a < b) :=
  (hs.and hn).imp fun h => lt_of_le_of_ne h.1 h.2

/-- The close overlay leaves the date of a row unchanged. -/
theorem updateClose_date (kospi : Dict ℚ) (r : Rec) :
    (updateClose kospi r).date = r.date := by
  unfold updateClose
  cases minKey kospi with
  | none => rfl
  | some e =>
    dsimp only
    by_cases h : e ≠ "" ∧ r.date < e ∧ dget r.date kospi = none
    · rw [if_pos h]
    · rw [if_neg h]

/-- The close overlay pass preserves the date sequence. -/
theorem overlayClose_map_date (kospi : Dict ℚ) (rows : List Rec) :
    ((overlayClose kospi rows).map fun r => r.date) = rows.map fun r => r.date := by
  unfold overlayClose
  rw [List.map_map]
  exact List.map_congr_left fun r _ => updateClose_date kospi r

/-- The forward-fill pass preserves the date sequence. -/
theorem fillClose_map_date (rows : List Rec) :
    ∀ last, ((fillClose last rows).map fun r => r.date) = rows.map fun r => r.date := by
  induction rows with
  | nil => intro last; rfl
  | cons r rs ih =>
    intro last
    cases hc : r.kospiClose with
    | some c => simp [fillClose, hc, ih]
    | none =>
      cases last with
      | some v => simp [fillClose, hc, ih]
      | none => simp [fillClose, hc, ih]

/-- Characterization of a successful reconciliation. -/
theorem reconcileCore_ok {existing : Dict Rec} {fetched : Dict DetailRow}
    {kospi : Dict ℚ} {start : Date} {R : List Rec}
    (h : reconcileCore existing fetched kospi start = .ok R) :
    mergedOf existing fetched start ≠ [] ∧
      R = fillClose none (overlayClose kospi (sortedRows (mergedOf existing fetched start))) := by
  unfold reconcileCore at h
  by_cases hm : mergedOf existing fetched start = []
  · rw [if_pos hm] at h
    exact absurd h (by simp)
  · rw [if_neg hm] at h
    injection h with h2
    exact ⟨hm, h2.symm⟩

/-- Dates of a successful reconciliation output are the sorted merged
keys. -/
theorem reconcile_dates {existing : Dict Rec} {fetched : Dict DetailRow}
    {kospi : Dict ℚ} {start : Date} {R : List Rec}
    (hex : KeyInv existing) (hf : ∀ p ∈ fetched, (p.2).date = p.1)
    (h : reconcileCore existing fetched kospi start = .ok R) :
    (R.map fun r => r.date) =
      List.insertionSort (fun a b : Date => a ≤ b)
        (dkeys (mergedOf existing fetched start)) := by
  obtain ⟨-, hR⟩ := reconcileCore_ok h
  rw [hR, fillClose_map_date, overlayClose_map_date,
    sortedRows_map_date (mergedOf_keyInv hex hf)]

/-- Every record of a successful reconciliation is dated at or after
the start date. -/
theorem reconcile_start {existing : Dict Rec} {fetched : Dict DetailRow}
    {kospi : Dict ℚ} {start : Date} {R : List Rec}
    (hex : KeyInv existing) (hf : ∀ p ∈ fetched, (p.2).date = p.1)
    (hR : reconcileCore existing fetched kospi start = .ok R) :
    ∀ r ∈ R, start ≤ r.date := by
  intro r hr
  have h1 : r.date ∈ R.map fun r => r.date := List.mem_map_of_mem _ hr
  rw [reconcile_dates hex hf hR] at h1
  have h2 : r.date ∈ dkeys (mergedOf existing fetched start) :=
    (List.mem_insertionSort _).mp h1
  obtain ⟨p, hp, hpd⟩ := List.mem_map.mp h2
  exact hpd ▸ mergedOf_start hp

/-- A successful reconciliation never returns the empty record list. -/
theorem reconcile_ne_nil {existing : Dict Rec} {fetched : Dict DetailRow}
    {kospi : Dict ℚ} {start : Date} {R : List Rec}
    (hex : KeyInv existing) (hf : ∀ p ∈ fetched, (p.2).date = p.1)
    (hR : reconcileCore existing fetched kospi start = .ok R) : R ≠ [] := by
  obtain ⟨hm, -⟩ := reconcileCore_ok hR
  intro h
  have hdates := reconcile_dates hex hf hR
  rw [h] at hdates
  have hperm := List.perm_insertionSort (fun a b : Date => a ≤ b)
    (dkeys (mergedOf existing fetched start))
  rw [← hdates] at hperm
  exact hm (List.map_eq_nil_iff.mp hperm.nil_eq.symm)

/-- C7: for every existing dataset with distinct, date-consistent keys
and every pair of fetched maps, every record in the reconciled output
is dated at or after the historical start date, and the output dates
are strictly increasing — no duplicates. -/
theorem c7_output_invariants (existing : Dict Rec) (fetched : Dict DetailRow)
    (kospi : Dict ℚ) (start : Date) (R : List Rec)
    (hnd : (dkeys existing).Nodup) (hex : KeyInv existing)
    (hf : ∀ p ∈ fetched, (p.2).date = p.1)
    (hR : reconcileCore existing fetched kospi start = .ok R) :
    (∀ r ∈ R, start ≤ r.date)
    ∧ (R.map fun r => r.date).Sorted (fun a b : Date => a < b) := by
  refine ⟨reconcile_start hex hf hR, ?_⟩
  rw [reconcile_dates hex hf hR]
  refine sorted_lt_of_le_nodup (List.sorted_insertionSort _ _) ?_
  exact ((List.perm_insertionSort _ _).nodup_iff).mpr (mergedOf_nodup hnd)

/-- C7 witness: the invariants on the concrete scenario output. -/
theorem c7_output_invariants_witness :
    (∀ r ∈ outScenario, "2024-01-01" ≤ r.date)
    ∧ (outScenario.map fun r => r.date).Sorted (fun a b : Date => a < b) :=
  c7_output_invariants exScenario fetchedScenario kospiScenario "2024-01-01"
    outScenario (by decide)
    (by decide : ∀ p ∈ exScenario, (p.2).date = p.1)
    (by decide) scenario_eval

/-! ### Idempotence machinery (C8) -/

/-- After a fill pass seeded with a known value, every close is
non-null. -/
theorem fillClose_isSome (l : List Rec) :
    ∀ v : ℚ, ∀ r ∈ fillClose (some v) l, (r.kospiClose).isSome := by
  induction l with
  | nil => intro v r hr; exact absurd hr (by simp [fillClose])
  | cons r0 rs ih =>
    intro v r hr
    cases hc : r0.kospiClose with
    | some c =>
      rw [show fillClose (some v) (r0 :: rs) = r0 :: fillClose (some c) rs from by
        simp [fillClose, hc]] at hr
      rcases List.mem_cons.mp hr with he | hmem
      · rw [he, hc]; rfl
      · exact ih c r hmem
    | none =>
      rw [show fillClose (some v) (r0 :: rs) =
          { r0 with kospiClose := some (round2 v) } :: fillClose (some v) rs from by
        simp [fillClose, hc]] at hr
      rcases List.mem_cons.mp hr with he | hmem
      · rw [he]; rfl
      · exact ih v r hmem

/-- The fill pass leaves a list whose closes are all non-null
unchanged. -/
theorem fillClose_of_isSome (l : List Rec)
    (h : ∀ r ∈ l, (r.kospiClose).isSome) : ∀ last, fillClose last l = l := by
  induction l with
  | nil => intro last; rfl
  | cons r rs ih =>
    intro last
    obtain ⟨c, hc⟩ := Option.isSome_iff_exists.mp (h r (List.mem_cons_self _ _))
    simp only [fillClose, hc]
    rw [ih fun x hx => h x (List.mem_cons_of_mem _ hx)]

/-- The forward-fill pass is idempotent. -/
theorem fillClose_idem (l : List Rec) :
    fillClose none (fillClose none l) = fillClose none l := by
  induction l with
  | nil => rfl
  | cons r rs ih =>
    cases hc : r.kospiClose with
    | some c =>
      simp only [fillClose, hc]
      rw [fillClose_of_isSome (fillClose (some c) rs) (fillClose_isSome rs c)]
    | none =>
      simp only [fillClose, hc]
      rw [ih]

/-- The close overlay with an empty fetched-close map changes
nothing. -/
theorem updateClose_nil (r : Rec) : updateClose [] r = r := rfl

/-- The overlay pass with an empty fetched-close map changes nothing. -/
theorem overlayClose_nil (rows : List Rec) : overlayClose [] rows = rows := by
  unfold overlayClose
  rw [List.map_congr_left fun r _ => updateClose_nil r]
  exact List.map_id rows

/-- The output list viewed again as the stored dict of the next run. -/
def toDict (R : List Rec) : Dict Rec := R.map fun r => (r.date, r)

/-- Key-and-date agreement of the stored view. -/
theorem toDict_keyInv (R : List Rec) : KeyInv (toDict R) := by
  intro p hp
  obtain ⟨r, _, hpr⟩ := List.mem_map.mp hp
  rw [← hpr]

/-- Keys of the stored view are the record dates. -/
theorem dkeys_toDict (R : List Rec) : dkeys (toDict R) = R.map fun r => r.date := by
  unfold toDict dkeys
  rw [List.map_map]
  rfl

/-- Looking the record dates back up in the stored view recovers the
records, when dates are distinct. -/
theorem filterMap_dget_toDict (R : List Rec)
    (hnd : (R.map fun r => r.date).Nodup) :
    ((R.map fun r => r.date).filterMap fun d => dget d (toDict R)) = R := by
  induction R with
  | nil => rfl
  | cons r rs ih =>
    simp only [List.map_cons, List.nodup_cons] at hnd
    obtain ⟨hnotin, hnd2⟩ := hnd
    simp only [toDict, List.map_cons, List.filterMap_cons]
    rw [show dget r.date ((r.date, r) :: rs.map fun x => (x.date, x)) = some r from by
      simp [dget]]
    have hcongr : ∀ d ∈ rs.map fun x => x.date,
        dget d ((r.date, r) :: rs.map fun x => (x.date, x)) =
          dget d (toDict rs) := by
      intro d hd
      have hne : d ≠ r.date := fun he => hnotin (he ▸ hd)
      simp [dget, if_neg hne, toDict]
    rw [List.filterMap_congr hcongr, ih hnd2]

/-- Sorting the stored view of an already-sorted output is the
identity. -/
theorem sortedRows_toDict (R : List Rec)
    (hs : (R.map fun r => r.date).Sorted (fun a b : Date => a ≤ b))
    (hnd : (R.map fun r => r.date).Nodup) :
    sortedRows (toDict R) = R := by
  unfold sortedRows
  rw [dkeys_toDict, hs.insertionSort_eq]
  exact filterMap_dget_toDict R hnd

/-- Merging the stored view with no fetched rows and filtering by a
start date every record satisfies is the identity. -/
theorem mergedOf_toDict (R : List Rec) (start : Date)
    (hstart : ∀ r ∈ R, start ≤ r.date) :
    mergedOf (toDict R) [] start = toDict R := by
  unfold mergedOf
  rw [show dmerge (toDict R) (([] : Dict DetailRow).map fun p =>
      (p.1, recOfDetail p.2)) = toDict R from rfl]
  rw [List.filter_eq_self.mpr]
  intro p hp
  obtain ⟨r, hr, hpr⟩ := List.mem_map.mp hp
  rw [← hpr]
  exact decide_eq_true (hstart r hr)

/-- C8: reconciling a reconciled output again, with empty fetched flow
and close maps, reproduces the record sequence unchanged (metadata is
outside the record model). -/
theorem c8_idempotent (existing : Dict Rec) (fetched : Dict DetailRow)
    (kospi : Dict ℚ) (start : Date) (R : List Rec)
    (hnd : (dkeys existing).Nodup) (hex : KeyInv existing)
    (hf : ∀ p ∈ fetched, (p.2).date = p.1)
    (hR : reconcileCore existing fetched kospi start = .ok R) :
    reconcileCore (toDict R) [] [] start = .ok R := by
  have hdates := reconcile_dates hex hf hR
  have hsorted : (R.map fun r => r.date).Sorted (fun a b : Date => a ≤ b) := by
    rw [hdates]
    exact List.sorted_insertionSort _ _
  have hndR : (R.map fun r => r.date).Nodup := by
    rw [hdates]
    exact ((List.perm_insertionSort _ _).nodup_iff).mpr (mergedOf_nodup hnd)
  have hne : toDict R ≠ [] := by
    intro h
    exact reconcile_ne_nil hex hf hR (List.map_eq_nil_iff.mp h)
  unfold reconcileCore
  rw [mergedOf_toDict R start (reconcile_start hex hf hR), if_neg hne,
    sortedRows_toDict R hsorted hndR, overlayClose_nil]
  obtain ⟨-, hRdef⟩ := reconcileCore_ok hR
  rw [hRdef, fillClose_idem]

/-- C8 witness: idempotence on the concrete scenario output. -/
theorem c8_idempotent_witness :
    reconcileCore (toDict outScenario) [] [] "2024-01-01" = .ok outScenario :=
  c8_idempotent exScenario fetchedScenario kospiScenario "2024-01-01"
    outScenario (by decide)
    (by decide : ∀ p ∈ exScenario, (p.2).date = p.1)
    (by decide) scenario_eval

end RiskKospi
